import Mathlib

/-!
Verification of the materials-property extraction pipeline.

This file gives a shallow embedding, in Lean 4, of the core of the
extraction pipeline: the tolerant structured-text parser
(`helpers.robust_json_parse`), the token-budget planner and orchestrator
guards (`base_properies_extractor.py`), the candidate normalization and
table-extraction stages (`properties_extractor.py`), the verification
("judge") stage (`judge_verify_properties`), and the downstream merge
engine (`compile_table.py`).

Modelling conventions:
- Python text is modelled as `List Char` (`Txt`); the ASCII fragment of
  the Python string operations that the code exercises is embedded
  directly (strip, split, replace, lower, substring search).
- Dynamic JSON-like Python values are modelled by the inductive `JVal`
  (null / bool / int / string / list / dict-as-ordered-assoc-list).
  Numbers are modelled as integers: none of the verified code performs
  arithmetic on property values, it only compares and serializes them.
- External collaborators (the text-generation capability, the JSON5
  parser and the Python literal-expression parser, both third-party)
  are taken as function parameters and universally quantified.
- The process-wide append-only logs are modelled functionally: each
  operation returns the list (or count) of lines it appends.
- Python side effects on shared dictionaries (the judge stage mutates
  material dicts in place) are modelled with an explicit heap
  `Nat → Material` and bundles holding addresses into it.
-/

set_option autoImplicit false

/-- Python text, modelled as a list of characters. -/
abbrev Txt := List Char

/-- The whitespace characters recognized by Python `str.strip` / `str.split`
(ASCII fragment): space, tab, newline, carriage return, vertical tab, form feed. -/
def isPyWs (c : Char) : Bool :=
  c = ' ' ∨ c = '\t' ∨ c = '\n' ∨ c = '\r' ∨ c = Char.ofNat 11 ∨ c = Char.ofNat 12

/-- Python `str.strip()`: drop leading and trailing whitespace. -/
def pyStrip (t : Txt) : Txt :=
  ((t.dropWhile isPyWs).reverse.dropWhile isPyWs).reverse

/-- Worker for Python `str.split()` (split on whitespace runs, no empty tokens):
`cur` is the reversed current token. -/
def splitWsGo (cur : Txt) : Txt → List Txt
  | [] => if cur.isEmpty then [] else [cur.reverse]
  | c :: cs =>
    if isPyWs c then
      if cur.isEmpty then splitWsGo [] cs else cur.reverse :: splitWsGo [] cs
    else
      splitWsGo (c :: cur) cs

/-- Python `str.split()` with no arguments. -/
def splitWs (t : Txt) : List Txt := splitWsGo [] t

/-- `compile_table.normalize_name` on a string: `" ".join(name.strip().split())`. -/
def normText (t : Txt) : Txt := List.intercalate [' '] (splitWs (pyStrip t))

/-- A JSON-like Python value: `None`, `bool`, `int`, `str`, `list`, `dict`
(insertion-ordered, keys listed in insertion order). -/
inductive JVal : Type where
  | null : JVal
  | bool : Bool → JVal
  | int : Int → JVal
  | str : Txt → JVal
  | arr : List JVal → JVal
  | obj : List (Txt × JVal) → JVal
  deriving Repr

mutual

def jvalBeq : JVal → JVal → Bool
  | .null, .null => true
  | .bool a, .bool b => a == b
  | .int a, .int b => a == b
  | .str a, .str b => a == b
  | .arr a, .arr b => jlistBeq a b
  | .obj a, .obj b => jalBeq a b
  | _, _ => false

def jlistBeq : List JVal → List JVal → Bool
  | [], [] => true
  | x :: xs, y :: ys => jvalBeq x y && jlistBeq xs ys
  | _, _ => false

def jalBeq : List (Txt × JVal) → List (Txt × JVal) → Bool
  | [], [] => true
  | (k1, v1) :: xs, (k2, v2) :: ys => k1 == k2 && jvalBeq v1 v2 && jalBeq xs ys
  | _, _ => false

end

mutual

theorem jvalBeq_iff : ∀ a b : JVal, jvalBeq a b = true ↔ a = b
  | .null, .null => by simp [jvalBeq]
  | .bool a, .bool b => by simp [jvalBeq]
  | .int a, .int b => by simp [jvalBeq]
  | .str a, .str b => by simp [jvalBeq]
  | .arr a, .arr b => by
      simp only [jvalBeq, jlistBeq_iff a b]
      constructor
      · intro h; rw [h]
      · intro h; cases h; rfl
  | .obj a, .obj b => by
      simp only [jvalBeq, jalBeq_iff a b]
      constructor
      · intro h; rw [h]
      · intro h; cases h; rfl
  | .null, .bool _ | .null, .int _ | .null, .str _ | .null, .arr _ | .null, .obj _
  | .bool _, .null | .bool _, .int _ | .bool _, .str _ | .bool _, .arr _ | .bool _, .obj _
  | .int _, .null | .int _, .bool _ | .int _, .str _ | .int _, .arr _ | .int _, .obj _
  | .str _, .null | .str _, .bool _ | .str _, .int _ | .str _, .arr _ | .str _, .obj _
  | .arr _, .null | .arr _, .bool _ | .arr _, .int _ | .arr _, .str _ | .arr _, .obj _
  | .obj _, .null | .obj _, .bool _ | .obj _, .int _ | .obj _, .str _ | .obj _, .arr _ => by
      simp [jvalBeq]

theorem jlistBeq_iff : ∀ a b : List JVal, jlistBeq a b = true ↔ a = b
  | [], [] => by simp [jlistBeq]
  | [], _ :: _ => by simp [jlistBeq]
  | _ :: _, [] => by simp [jlistBeq]
  | x :: xs, y :: ys => by
      simp [jlistBeq, jvalBeq_iff x y, jlistBeq_iff xs ys]

theorem jalBeq_iff : ∀ a b : List (Txt × JVal), jalBeq a b = true ↔ a = b
  | [], [] => by simp [jalBeq]
  | [], _ :: _ => by simp [jalBeq]
  | _ :: _, [] => by simp [jalBeq]
  | (k1, v1) :: xs, (k2, v2) :: ys => by
      simp [jalBeq, jvalBeq_iff v1 v2, jalBeq_iff xs ys, and_assoc]

end

instance : DecidableEq JVal := fun a b =>
  decidable_of_iff (jvalBeq a b = true) (jvalBeq_iff a b)

/-- The canonical empty bundle of every extraction stage. -/
def emptyBundle : JVal := .obj [(("materials").toList, .arr [])]

/-- Lowercase hex digit, as produced by the json serializer for control
characters. -/
def hexDigit (n : Nat) : Char :=
  if n < 10 then Char.ofNat (48 + n) else Char.ofNat (87 + n)

/-- One character of a json string literal, as `json.dumps` with
`ensure_ascii=False` renders it. -/
def escapeJsonChar (c : Char) : Txt :=
  if c = '"' then ['\\', '"']
  else if c = '\\' then ['\\', '\\']
  else if c = '\n' then ['\\', 'n']
  else if c = '\r' then ['\\', 'r']
  else if c = '\t' then ['\\', 't']
  else if c = Char.ofNat 8 then ['\\', 'b']
  else if c = Char.ofNat 12 then ['\\', 'f']
  else if c.toNat < 32 then
    ['\\', 'u', '0', '0', hexDigit (c.toNat / 16), hexDigit (c.toNat % 16)]
  else [c]

/-- A json string literal: quoted, with characters escaped. -/
def dumpsStr (s : Txt) : Txt := '"' :: (s.map escapeJsonChar).flatten ++ ['"']

/-- Python string comparison `<` (lexicographic by code point), used by
`json.dumps(..., sort_keys=True)`. -/
def lexLt : Txt → Txt → Bool
  | [], [] => false
  | [], _ :: _ => true
  | _ :: _, [] => false
  | a :: as, b :: bs =>
    if a.toNat < b.toNat then true
    else if b.toNat < a.toNat then false
    else lexLt as bs

/-- Stable insertion into a key-sorted list of rendered dict entries. -/
def insByKey (x : Txt × Txt) : List (Txt × Txt) → List (Txt × Txt)
  | [] => [x]
  | y :: ys => if lexLt x.1 y.1 then x :: y :: ys else y :: insByKey x ys

/-- Stable sort of rendered dict entries by key (`sorted(d.items())`). -/
def sortPairsByKey (l : List (Txt × Txt)) : List (Txt × Txt) :=
  l.foldr insByKey []

/-- One rendered dict entry, `"key": value` with the default `": "` separator. -/
def entryTxt (p : Txt × Txt) : Txt := dumpsStr p.1 ++ (": ").toList ++ p.2

mutual

/-- `json.dumps(x, sort_keys=True, ensure_ascii=False)` as used by
`compile_table._dedupe_list` to build hashable dedup keys. -/
def dumps : JVal → Txt
  | .null => ("null").toList
  | .bool true => ("true").toList
  | .bool false => ("false").toList
  | .int n => (toString n).toList
  | .str s => dumpsStr s
  | .arr xs => '[' :: (List.intercalate ((", ").toList) (dumpsList xs) ++ [']'])
  | .obj kvs =>
    Char.ofNat 123 ::
      (List.intercalate ((", ").toList)
        ((sortPairsByKey (dumpsEntries kvs)).map entryTxt) ++ [Char.ofNat 125])

def dumpsList : List JVal → List Txt
  | [] => []
  | x :: xs => dumps x :: dumpsList xs

def dumpsEntries : List (Txt × JVal) → List (Txt × Txt)
  | [] => []
  | (k, v) :: rest => (k, dumps v) :: dumpsEntries rest

end

/-- The dedup key `compile_table._dedupe_list` computes for a list item:
`json.dumps(x, sort_keys=True, ensure_ascii=False)` for dict/list items,
Python `str(x)` for everything else. -/
def pyKey : JVal → Txt
  | .arr xs => dumps (.arr xs)
  | .obj kvs => dumps (.obj kvs)
  | .null => ("None").toList
  | .bool true => ("True").toList
  | .bool false => ("False").toList
  | .int n => (toString n).toList
  | .str s => s

/-- The `seen`-set loop shared by `compile_table._dedupe_list` and the
candidate normalization: keep an item iff its key was not seen before.
Membership in a Python set of strings is modelled as list membership. -/
def dedupeByGo {α β : Type} (key : α → β) [DecidableEq β] (seen : List β) :
    List α → List α
  | [] => []
  | x :: xs =>
    if key x ∈ seen then dedupeByGo key seen xs
    else x :: dedupeByGo key (key x :: seen) xs

/-- Deduplicate by key, first occurrence wins (the `seen = set()` idiom). -/
def dedupeBy {α β : Type} (key : α → β) [DecidableEq β] (xs : List α) : List α :=
  dedupeByGo key [] xs

/-- `compile_table._dedupe_list`. -/
def dedupeList (xs : List JVal) : List JVal := dedupeBy pyKey xs

/-- Reference form of first-occurrence deduplication: keep each item and
drop every later item with the same key. -/
def firstOccBy {α β : Type} (key : α → β) [DecidableEq β] : List α → List α
  | [] => []
  | x :: xs => x :: firstOccBy key (xs.filter fun y => decide (key y ≠ key x))
termination_by xs => xs.length
decreasing_by
  exact Nat.lt_succ_of_le (List.length_filter_le _ _)

theorem firstOccBy_sublist {α β : Type} (key : α → β) [DecidableEq β] :
    ∀ xs : List α, (firstOccBy key xs).Sublist xs
  | [] => by simp [firstOccBy]
  | x :: xs => by
    rw [firstOccBy]
    exact List.Sublist.cons₂ x
      ((firstOccBy_sublist key _).trans (List.filter_sublist _))
termination_by xs => xs.length
decreasing_by
  exact Nat.lt_succ_of_le (List.length_filter_le _ _)

theorem firstOccBy_keys_nodup {α β : Type} (key : α → β) [DecidableEq β] :
    ∀ xs : List α, ((firstOccBy key xs).map key).Nodup
  | [] => by simp [firstOccBy]
  | x :: xs => by
    rw [firstOccBy]
    refine List.nodup_cons.mpr ⟨?_, firstOccBy_keys_nodup key _⟩
    intro hmem
    rcases List.mem_map.mp hmem with ⟨y, hy, hkey⟩
    have hy' := (firstOccBy_sublist key _).subset hy
    have := List.of_mem_filter hy'
    simp only [decide_eq_true_eq] at this
    exact this hkey
termination_by xs => xs.length
decreasing_by
  all_goals exact Nat.lt_succ_of_le (List.length_filter_le _ _)

theorem dedupeByGo_eq {α β : Type} (key : α → β) [DecidableEq β] :
    ∀ (xs : List α) (seen : List β),
      dedupeByGo key seen xs =
        firstOccBy key (xs.filter fun y => decide (key y ∉ seen))
  | [], _ => by simp [dedupeByGo, firstOccBy]
  | x :: xs, seen => by
    by_cases h : key x ∈ seen
    · rw [dedupeByGo, if_pos h, dedupeByGo_eq key xs seen]
      simp [List.filter_cons, h]
    · have hx : decide (key x ∉ seen) = true := by simpa using h
      rw [dedupeByGo, if_neg h, dedupeByGo_eq key xs (key x :: seen),
        List.filter_cons, hx, if_pos rfl, firstOccBy, List.filter_filter]
      refine congrArg (x :: ·) (congrArg (firstOccBy key) (List.filter_congr ?_))
      intro y _
      have hiff : (key y ∉ key x :: seen) ↔ (key y ≠ key x ∧ key y ∉ seen) := by
        simp [not_or]
      rw [← Bool.decide_and]
      exact decide_eq_decide.mpr hiff

/-- The `seen`-set loop computes exactly first-occurrence deduplication. -/
theorem dedupeBy_eq_firstOccBy {α β : Type} (key : α → β) [DecidableEq β]
    (xs : List α) : dedupeBy key xs = firstOccBy key xs := by
  rw [dedupeBy, dedupeByGo_eq key xs []]
  congr 1
  apply (List.filter_eq_self).mpr
  intro a _
  simp

/-- Python `" ".join(...)` of a token list. -/
def joinSpace : List Txt → Txt
  | [] => []
  | [t] => t
  | t :: ts => t ++ ' ' :: joinSpace ts

theorem splitWsGo_allWs (w : Txt) (hw : ∀ c ∈ w, isPyWs c = true) :
    ∀ cur : Txt, splitWsGo cur w = if cur.isEmpty then [] else [cur.reverse] := by
  induction w with
  | nil => intro cur; rfl
  | cons c cs ih =>
    intro cur
    have hc : isPyWs c = true := hw c (List.mem_cons_self c cs)
    have ih' := ih (fun x hx => hw x (List.mem_cons_of_mem c hx))
    rw [splitWsGo, if_pos hc]
    by_cases hcur : cur.isEmpty
    · rw [if_pos hcur, ih' [], if_pos hcur]; rfl
    · rw [if_neg hcur, ih' [], if_neg hcur]; rfl

theorem splitWsGo_append_allWs (w : Txt) (hw : ∀ c ∈ w, isPyWs c = true) :
    ∀ (t cur : Txt), splitWsGo cur (t ++ w) = splitWsGo cur t := by
  intro t
  induction t with
  | nil =>
    intro cur
    rw [List.nil_append, splitWsGo_allWs w hw cur]; rfl
  | cons c cs ih =>
    intro cur
    rw [List.cons_append, splitWsGo, splitWsGo]
    by_cases hc : isPyWs c
    · rw [if_pos hc, if_pos hc]
      by_cases hcur : cur.isEmpty
      · rw [if_pos hcur, if_pos hcur, ih]
      · rw [if_neg hcur, if_neg hcur, ih]
    · rw [if_neg hc, if_neg hc, ih]

theorem splitWsGo_dropWhile (t : Txt) :
    splitWsGo [] (t.dropWhile isPyWs) = splitWsGo [] t := by
  induction t with
  | nil => rfl
  | cons c cs ih =>
    by_cases hc : isPyWs c
    · rw [List.dropWhile_cons_of_pos hc, ih, splitWsGo, if_pos hc]
      simp
    · rw [List.dropWhile_cons_of_neg hc]

/-- Stripping first does not change what `split()` produces. -/
theorem splitWs_pyStrip (t : Txt) : splitWs (pyStrip t) = splitWs t := by
  have hdecomp :
      t.dropWhile isPyWs =
        ((t.dropWhile isPyWs).reverse.dropWhile isPyWs).reverse ++
          ((t.dropWhile isPyWs).reverse.takeWhile isPyWs).reverse := by
    have h := List.takeWhile_append_dropWhile (p := isPyWs)
      (l := (t.dropWhile isPyWs).reverse)
    calc t.dropWhile isPyWs
        = (t.dropWhile isPyWs).reverse.reverse := by rw [List.reverse_reverse]
      _ = _ := by
          conv_lhs => rw [← h]
          rw [List.reverse_append]
  have hw : ∀ c ∈ ((t.dropWhile isPyWs).reverse.takeWhile isPyWs).reverse,
      isPyWs c = true := by
    intro c hc
    rw [List.mem_reverse] at hc
    exact List.mem_takeWhile_imp hc
  rw [splitWs, splitWs, pyStrip,
    ← splitWsGo_append_allWs _ hw _ [], ← hdecomp, splitWsGo_dropWhile]

theorem splitWsGo_token (tok : Txt) (htok : ∀ c ∈ tok, isPyWs c = false) :
    ∀ (rest cur : Txt), splitWsGo cur (tok ++ rest) = splitWsGo (tok.reverse ++ cur) rest := by
  induction tok with
  | nil => intro rest cur; rfl
  | cons c cs ih =>
    intro rest cur
    have hc : isPyWs c = false := htok c (List.mem_cons_self c cs)
    rw [List.cons_append, splitWsGo, if_neg (by simp [hc]),
      ih (fun x hx => htok x (List.mem_cons_of_mem c hx)) rest (c :: cur)]
    congr 1
    rw [List.reverse_cons, List.append_assoc]
    rfl

theorem splitWsGo_tokens (t : Txt) :
    ∀ cur : Txt, (∀ c ∈ cur, isPyWs c = false) →
      ∀ tok ∈ splitWsGo cur t, tok ≠ [] ∧ ∀ c ∈ tok, isPyWs c = false := by
  induction t with
  | nil =>
    intro cur hcur tok htok
    rw [splitWsGo] at htok
    by_cases hcure : cur.isEmpty
    · rw [if_pos hcure] at htok; exact absurd htok (List.not_mem_nil tok)
    · rw [if_neg hcure] at htok
      rcases List.mem_singleton.mp htok with rfl
      refine ⟨by simpa [List.isEmpty_iff] using hcure, ?_⟩
      intro c hc
      exact hcur c (List.mem_reverse.mp hc)
  | cons c cs ih =>
    intro cur hcur tok htok
    rw [splitWsGo] at htok
    by_cases hc : isPyWs c
    · rw [if_pos hc] at htok
      by_cases hcure : cur.isEmpty
      · rw [if_pos hcure] at htok
        exact ih [] (by intro x hx; cases hx) tok htok
      · rw [if_neg hcure] at htok
        rcases List.mem_cons.mp htok with rfl | hmem
        · refine ⟨by simpa [List.isEmpty_iff] using hcure, ?_⟩
          intro x hx
          exact hcur x (List.mem_reverse.mp hx)
        · exact ih [] (by intro x hx; cases hx) tok hmem
    · rw [if_neg hc] at htok
      refine ih (c :: cur) ?_ tok htok
      intro x hx
      rcases List.mem_cons.mp hx with rfl | hx'
      · simpa using hc
      · exact hcur x hx'

theorem splitWs_joinSpace (ts : List Txt)
    (hts : ∀ tok ∈ ts, tok ≠ [] ∧ ∀ c ∈ tok, isPyWs c = false) :
    splitWs (joinSpace ts) = ts := by
  induction ts with
  | nil => rfl
  | cons t ts ih =>
    rcases hts t (List.mem_cons_self t ts) with ⟨hne, hnws⟩
    cases ts with
    | nil =>
      have h1 := splitWsGo_token t hnws [] []
      rw [List.append_nil, List.append_nil] at h1
      show splitWsGo [] t = [t]
      rw [h1, splitWsGo,
        if_neg (by simpa [List.isEmpty_iff] using hne), List.reverse_reverse]
    | cons t2 ts2 =>
      have h1 := splitWsGo_token t hnws (' ' :: joinSpace (t2 :: ts2)) []
      rw [List.append_nil] at h1
      show splitWsGo [] (t ++ ' ' :: joinSpace (t2 :: ts2)) = t :: t2 :: ts2
      rw [h1, splitWsGo, if_pos (by decide),
        if_neg (by simpa [List.isEmpty_iff] using hne), List.reverse_reverse]
      have h2 := ih (fun tok htok => hts tok (List.mem_cons_of_mem t htok))
      rw [splitWs] at h2
      rw [h2]

/-- Name normalization is idempotent. -/
theorem normTextJoin_idem (t : Txt) :
    joinSpace (splitWs (pyStrip (joinSpace (splitWs (pyStrip t))))) =
      joinSpace (splitWs (pyStrip t)) := by
  rw [splitWs_pyStrip (joinSpace (splitWs (pyStrip t)))]
  have hts : ∀ tok ∈ splitWs (pyStrip t), tok ≠ [] ∧ ∀ c ∈ tok, isPyWs c = false :=
    splitWsGo_tokens (pyStrip t) [] (by intro x hx; cases hx)
  rw [splitWs_joinSpace (splitWs (pyStrip t)) hts]

/-- A Python dict of json values: insertion-ordered association list.
Python dicts never hold a key twice; operations act on the first
occurrence, which coincides with dict behavior on representable values. -/
abbrev PyDict := List (Txt × JVal)

/-- `d.get(k)` / key lookup (first occurrence). -/
def alGet {α : Type} : List (Txt × α) → Txt → Option α
  | [], _ => none
  | (k1, v) :: rest, k => if k1 = k then some v else alGet rest k

/-- `d.get(k)` with Python `None` for a missing key. -/
def alGetD (l : PyDict) (k : Txt) : JVal := (alGet l k).getD .null

/-- `d[k] = v`: replace in place if the key exists, else append. -/
def alSet {α : Type} : List (Txt × α) → Txt → α → List (Txt × α)
  | [], k, v => [(k, v)]
  | (k1, v1) :: rest, k, v =>
    if k1 = k then (k1, v) :: rest else (k1, v1) :: alSet rest k v

/-- The `"name"` key. -/
def nameKey : Txt := ("name").toList

/-- Discriminator for Python `type(a) != type(b)` on json-like values
(`bool` and `int` are distinct Python types). -/
def jtype : JVal → Nat
  | .null => 0
  | .bool _ => 1
  | .int _ => 2
  | .str _ => 3
  | .arr _ => 4
  | .obj _ => 5

/-- Python `a in ("", [], {})` for a json-like value (`==`-based membership). -/
def isEmptyish : JVal → Bool
  | .str [] => true
  | .arr [] => true
  | .obj [] => true
  | _ => false

mutual

/-- `compile_table.merge_values`: `None` is neutral; two lists concatenate
and deduplicate; two dicts merge recursively per key; otherwise keep the
first operand unless it is empty-ish and the types differ. -/
def merge_values : JVal → JVal → JVal
  | .null, b => b
  | a, .null => a
  | .arr xs, .arr ys => .arr (dedupeList (xs ++ ys))
  | .obj ka, .obj kb => .obj (mergeObjInto ka kb)
  | a, b =>
    if jtype a ≠ jtype b then
      if isEmptyish a then b else a
    else a

/-- The loop `for k, vb in b.items(): out[k] = merge_values(out.get(k), vb)`
inside the dict case of `merge_values`. -/
def mergeObjInto (out : PyDict) : PyDict → PyDict
  | [] => out
  | (k, vb) :: rest => mergeObjInto (alSet out k (merge_values (alGetD out k) vb)) rest

end

/-- `compile_table.normalize_name`: non-strings normalize to the empty
name, strings have whitespace runs collapsed. -/
def normalize_name : JVal → Txt
  | .str s => joinSpace (splitWs (pyStrip s))
  | _ => []

/-- The normalized name of a material dict, `normalize_name(mat.get("name"))`. -/
def matName (m : PyDict) : Txt := normalize_name (alGetD m nameKey)

/-- The in-group merge of `compile_table.compile_table`:
`acc["name"] = name`, then merge every non-name key of `mat` into `acc`. -/
def mergeMatGo (acc : PyDict) : PyDict → PyDict
  | [] => acc
  | (k, v) :: rest =>
    if k = nameKey then mergeMatGo acc rest
    else mergeMatGo (alSet acc k (merge_values (alGetD acc k) v)) rest

def mergeMat (name : Txt) (acc mat : PyDict) : PyDict :=
  mergeMatGo (alSet acc nameKey (.str name)) mat

/-- One iteration of the merge-by-name loop of `compile_table.compile_table`:
non-dict materials are skipped; materials with an empty normalized name are
carried through unmerged; otherwise group by normalized name, first
occurrence stored as-is, later occurrences merged in. -/
def compileMergeStep (acc : List (Txt × PyDict) × List JVal) (v : JVal) :
    List (Txt × PyDict) × List JVal :=
  match v with
  | .obj mat =>
    if (matName mat).isEmpty then (acc.1, acc.2 ++ [.obj mat])
    else
      match alGet acc.1 (matName mat) with
      | none => (acc.1 ++ [(matName mat, mat)], acc.2)
      | some prev => (alSet acc.1 (matName mat) (mergeMat (matName mat) prev mat), acc.2)
  | _ => acc

/-- The merge-by-name pass of `compile_table.compile_table` (the part of the
function between loading `t.json` and flattening to CSV):
`merged_materials = list(merged_by_name.values()) + unnamed`. -/
def compileMerge (materials : List JVal) : List JVal :=
  let acc := materials.foldl compileMergeStep ([], [])
  acc.1.map (fun p => .obj p.2) ++ acc.2


theorem alGet_eq_none {α : Type} (l : List (Txt × α)) (k : Txt) :
    alGet l k = none ↔ k ∉ l.map Prod.fst := by
  induction l with
  | nil => simp [alGet]
  | cons p rest ih =>
    obtain ⟨k1, v⟩ := p
    rw [alGet]
    by_cases h : k1 = k
    · rw [if_pos h]
      simp only [List.map_cons, List.mem_cons]
      constructor
      · intro hcontra; cases hcontra
      · intro hcontra; exact absurd (Or.inl h.symm) hcontra
    · simp only [if_neg h, List.map_cons, List.mem_cons, not_or, ih]
      have hne : ¬ k = k1 := fun he => h he.symm
      tauto

theorem alGet_alSet_self {α : Type} (k : Txt) (v : α) :
    ∀ l : List (Txt × α), alGet (alSet l k v) k = some v := by
  intro l
  induction l with
  | nil => simp [alSet, alGet]
  | cons p rest ih =>
    obtain ⟨k1, v1⟩ := p
    by_cases h : k1 = k
    · rw [alSet, if_pos h, alGet, if_pos h]
    · rw [alSet, if_neg h, alGet, if_neg h]
      exact ih

theorem alGet_alSet_ne {α : Type} (k k' : Txt) (hne : k ≠ k') (v : α) :
    ∀ l : List (Txt × α), alGet (alSet l k v) k' = alGet l k' := by
  intro l
  induction l with
  | nil => simp [alSet, alGet, hne]
  | cons p rest ih =>
    obtain ⟨k1, v1⟩ := p
    by_cases h : k1 = k
    · simp only [alSet, if_pos h, alGet]
      have h2 : ¬ k1 = k' := fun he => hne (h ▸ he)
      rw [if_neg h2, if_neg h2]
    · simp only [alSet, if_neg h, alGet]
      by_cases h2 : k1 = k'
      · rw [if_pos h2, if_pos h2]
      · rw [if_neg h2, if_neg h2, ih]

theorem alSet_keys_of_mem {α : Type} (k : Txt) (v : α) :
    ∀ l : List (Txt × α), k ∈ l.map Prod.fst →
      (alSet l k v).map Prod.fst = l.map Prod.fst := by
  intro l
  induction l with
  | nil => intro h; cases h
  | cons p rest ih =>
    obtain ⟨k1, v1⟩ := p
    intro hmem
    by_cases h : k1 = k
    · rw [alSet, if_pos h]
      simp
    · rw [alSet, if_neg h]
      have hk : k ∈ rest.map Prod.fst := by
        rcases List.mem_cons.mp hmem with he | hm
        · exact absurd he.symm h
        · exact hm
      simp [ih hk]

theorem alSet_mem {α : Type} (k : Txt) (v : α) :
    ∀ (l : List (Txt × α)) (p : Txt × α),
      p ∈ alSet l k v → p ∈ l ∨ p = (k, v) := by
  intro l
  induction l with
  | nil =>
    intro p hp
    rw [alSet] at hp
    right
    exact List.mem_singleton.mp hp
  | cons q rest ih =>
    obtain ⟨k1, v1⟩ := q
    intro p hp
    by_cases h : k1 = k
    · rw [alSet, if_pos h] at hp
      rcases List.mem_cons.mp hp with he | hm
      · right; rw [he, h]
      · left; exact List.mem_cons_of_mem _ hm
    · rw [alSet, if_neg h] at hp
      rcases List.mem_cons.mp hp with he | hm
      · left; rw [he]; exact List.mem_cons_self _ _
      · rcases ih p hm with hin | he
        · left; exact List.mem_cons_of_mem _ hin
        · right; exact he

theorem alGet_mergeMatGo_name :
    ∀ mat acc : PyDict, alGet (mergeMatGo acc mat) nameKey = alGet acc nameKey := by
  intro mat
  induction mat with
  | nil => intro acc; rfl
  | cons p rest ih =>
    intro acc
    obtain ⟨k, v⟩ := p
    by_cases h : k = nameKey
    · rw [mergeMatGo, if_pos h, ih]
    · rw [mergeMatGo, if_neg h, ih, alGet_alSet_ne k nameKey h _]

/-- After an in-group merge, the name field holds exactly the group name. -/
theorem matName_mergeMat (name : Txt) (prev mat : PyDict) :
    matName (mergeMat name prev mat) = normalize_name (.str name) := by
  rw [matName, mergeMat, alGetD, alGet_mergeMatGo_name, alGet_alSet_self]
  rfl

/-- Normalizing an already-normalized name is the identity. -/
theorem normalize_name_str_normalize (v : JVal) :
    normalize_name (.str (normalize_name v)) = normalize_name v := by
  cases v with
  | str s => exact normTextJoin_idem s
  | null => rfl
  | bool b => rfl
  | int n => rfl
  | arr xs => rfl
  | obj kvs => rfl

/-- Invariant of the merge-by-name accumulator: stored keys are the
normalized names of the stored materials, nonempty and pairwise distinct;
carried-through materials are dicts with empty normalized names. -/
def MergedInv (d : List (Txt × PyDict)) (u : List JVal) : Prop :=
  (∀ p ∈ d, matName p.2 = p.1 ∧ p.1 ≠ []) ∧
  (d.map Prod.fst).Nodup ∧
  (∀ v ∈ u, ∃ m, v = JVal.obj m ∧ matName m = [])

theorem mergedInv_step (d : List (Txt × PyDict)) (u : List JVal) (v : JVal)
    (h : MergedInv d u) :
    MergedInv (compileMergeStep (d, u) v).1 (compileMergeStep (d, u) v).2 := by
  obtain ⟨h1, h2, h3⟩ := h
  cases v with
  | obj mat =>
    rw [compileMergeStep]
    by_cases hname : (matName mat).isEmpty
    · rw [if_pos hname]
      refine ⟨h1, h2, ?_⟩
      intro w hw
      rcases List.mem_append.mp hw with hw | hw
      · exact h3 w hw
      · rw [List.mem_singleton.mp hw]
        exact ⟨mat, rfl, List.isEmpty_iff.mp hname⟩
    · rw [if_neg hname]
      have hne : matName mat ≠ [] := fun he => hname (List.isEmpty_iff.mpr he)
      cases hget : alGet d (matName mat) with
      | none =>
        have hnot : matName mat ∉ d.map Prod.fst :=
          (alGet_eq_none d (matName mat)).mp hget
        refine ⟨?_, ?_, h3⟩
        · intro p hp
          rcases List.mem_append.mp hp with hp | hp
          · exact h1 p hp
          · rw [List.mem_singleton.mp hp]
            exact ⟨rfl, hne⟩
        · rw [List.map_append]
          refine List.Nodup.append h2 (List.nodup_singleton _) ?_
          intro x hx1 hx2
          rw [List.map_singleton, List.mem_singleton] at hx2
          rw [hx2] at hx1
          exact hnot hx1
      | some prev =>
        have hmem : matName mat ∈ d.map Prod.fst := by
          by_contra hc
          rw [← alGet_eq_none d (matName mat)] at hc
          rw [hc] at hget
          cases hget
        refine ⟨?_, ?_, h3⟩
        · intro p hp
          rcases alSet_mem _ _ d p hp with hin | he
          · exact h1 p hin
          · rw [he]
            refine ⟨?_, hne⟩
            rw [matName_mergeMat]
            show normalize_name (.str (normalize_name (alGetD mat nameKey))) = _
            rw [normalize_name_str_normalize]
            rfl
        · rw [alSet_keys_of_mem _ _ d hmem]
          exact h2
  | null => exact ⟨h1, h2, h3⟩
  | bool b => exact ⟨h1, h2, h3⟩
  | int n => exact ⟨h1, h2, h3⟩
  | str s => exact ⟨h1, h2, h3⟩
  | arr xs => exact ⟨h1, h2, h3⟩

theorem mergedInv_fold (xs : List JVal) :
    ∀ (d : List (Txt × PyDict)) (u : List JVal), MergedInv d u →
      MergedInv (xs.foldl compileMergeStep (d, u)).1
        (xs.foldl compileMergeStep (d, u)).2 := by
  induction xs with
  | nil => intro d u h; exact h
  | cons v rest ih =>
    intro d u h
    rw [List.foldl_cons]
    have h2 := mergedInv_step d u v h
    rcases hc : compileMergeStep (d, u) v with ⟨d', u'⟩
    rw [hc] at h2
    exact ih d' u' h2

/-- Re-merging distinct named groups just re-inserts them, in order. -/
theorem fold_named :
    ∀ (d1 d : List (Txt × PyDict)) (u : List JVal),
      (∀ p ∈ d1, matName p.2 = p.1 ∧ p.1 ≠ []) →
      (d1.map Prod.fst).Nodup →
      (∀ p ∈ d1, p.1 ∉ d.map Prod.fst) →
      List.foldl compileMergeStep (d, u) (d1.map fun p => JVal.obj p.2) =
        (d ++ d1, u) := by
  intro d1
  induction d1 with
  | nil => intro d u _ _ _; simp
  | cons p rest ih =>
    obtain ⟨n, m⟩ := p
    intro d u hP hnd hfresh
    have hm : matName m = n := (hP (n, m) (List.mem_cons_self _ _)).1
    have hne : n ≠ [] := (hP (n, m) (List.mem_cons_self _ _)).2
    have hnd1 : (n :: rest.map Prod.fst).Nodup := by
      rw [List.map_cons] at hnd
      exact hnd
    have hempn : n.isEmpty = false := by
      cases hn : n with
      | nil => exact absurd hn hne
      | cons a l => rfl
    have hgetn : alGet d n = none :=
      (alGet_eq_none d n).mpr (hfresh (n, m) (List.mem_cons_self _ _))
    rw [List.map_cons, List.foldl_cons]
    have hstep : compileMergeStep (d, u) (JVal.obj m) = (d ++ [(n, m)], u) := by
      simp only [compileMergeStep, hm, hempn, Bool.false_eq_true, if_false, hgetn]
    rw [hstep]
    have hrest :
        List.foldl compileMergeStep (d ++ [(n, m)], u)
          (rest.map fun p => JVal.obj p.2) = ((d ++ [(n, m)]) ++ rest, u) := by
      refine ih (d ++ [(n, m)]) u ?_ ?_ ?_
      · intro q hq; exact hP q (List.mem_cons_of_mem _ hq)
      · exact (List.nodup_cons.mp hnd1).2
      · intro q hq
        rw [List.map_append]
        intro habs
        rcases List.mem_append.mp habs with hin | hin
        · exact hfresh q (List.mem_cons_of_mem _ hq) hin
        · rw [List.map_singleton, List.mem_singleton] at hin
          have hn_notin : n ∉ rest.map Prod.fst := (List.nodup_cons.mp hnd1).1
          have hq1 : q.1 ∈ rest.map Prod.fst := List.mem_map_of_mem Prod.fst hq
          rw [hin] at hq1
          exact hn_notin hq1
    rw [hrest, List.append_assoc]
    rfl

/-- Re-merging unnamed materials appends them unchanged, in order. -/
theorem fold_unnamed :
    ∀ (u1 : List JVal) (d : List (Txt × PyDict)) (u : List JVal),
      (∀ v ∈ u1, ∃ m, v = JVal.obj m ∧ matName m = []) →
      List.foldl compileMergeStep (d, u) u1 = (d, u ++ u1) := by
  intro u1
  induction u1 with
  | nil => intro d u _; simp
  | cons v rest ih =>
    intro d u hu
    rcases hu v (List.mem_cons_self _ _) with ⟨m, rfl, hm⟩
    rw [List.foldl_cons]
    have hstep : compileMergeStep (d, u) (JVal.obj m) = (d, u ++ [JVal.obj m]) := by
      simp only [compileMergeStep, hm]
      rfl
    rw [hstep, ih d (u ++ [JVal.obj m])
      (fun w hw => hu w (List.mem_cons_of_mem _ hw))]
    simp

/-- The merge-by-name pass is idempotent: running `compile_table`s merge
over an already-merged materials list returns it unchanged. -/
theorem compileMerge_compileMerge (xs : List JVal) :
    compileMerge (compileMerge xs) = compileMerge xs := by
  have hinv := mergedInv_fold xs [] []
    ⟨fun p hp => absurd hp (List.not_mem_nil p), List.nodup_nil,
      fun v hv => absurd hv (List.not_mem_nil v)⟩
  rcases hres : xs.foldl compileMergeStep ([], []) with ⟨d, u⟩
  rw [hres] at hinv
  obtain ⟨h1, h2, h3⟩ := hinv
  have hLHS : compileMerge xs = d.map (fun p => JVal.obj p.2) ++ u := by
    rw [compileMerge, hres]
  rw [hLHS, compileMerge, List.foldl_append,
    fold_named d [] [] h1 h2 (by intro p hp; simp),
    fold_unnamed u ([] ++ d) [] h3]
  simp

/-- The exact whitespace characters `json.loads` skips between tokens. -/
def jsonWs (c : Char) : Bool := c = ' ' ∨ c = '\t' ∨ c = '\n' ∨ c = '\r'

/-- Skip json whitespace. -/
def skipWs : Txt → Txt
  | [] => []
  | c :: cs => if jsonWs c then skipWs cs else c :: cs

def isDigit (c : Char) : Bool := 48 ≤ c.toNat ∧ c.toNat ≤ 57

def digitsVal (ds : Txt) : Nat := ds.foldl (fun acc c => acc * 10 + (c.toNat - 48)) 0

/-- An unsigned json integer token: one or more digits, no leading zero. -/
def parseNatTok (t : Txt) : Option (Nat × Txt) :=
  let ds := t.takeWhile isDigit
  if ds.isEmpty then none
  else if 1 < ds.length ∧ ds.head? = some '0' then none
  else some (digitsVal ds, t.dropWhile isDigit)

/-- A json integer token with optional sign. The embedding models json
numbers as integers; inputs with fractional or exponent parts are outside
the modelled fragment and fail to parse. -/
def parseNumberTok (t : Txt) : Option (JVal × Txt) :=
  match t with
  | '-' :: rest =>
    match parseNatTok rest with
    | some (n, r) => some (.int (-(n : Int)), r)
    | none => none
  | _ =>
    match parseNatTok t with
    | some (n, r) => some (.int (n : Int), r)
    | none => none

def obrace : Char := Char.ofNat 123
def cbrace : Char := Char.ofNat 125

/-- Body of a json string literal after the opening quote: plain characters
and the single-character escapes; raw control characters are rejected as in
strict mode. (The `\u` escape is outside the modelled fragment.) -/
def parseStringBody : Nat → Txt → Option (Txt × Txt)
  | 0, _ => none
  | _, [] => none
  | fuel + 1, c :: cs =>
    if c = '"' then some ([], cs)
    else if c = '\\' then
      match cs with
      | [] => none
      | e :: cs2 =>
        let esc : Option Char :=
          if e = '"' then some '"'
          else if e = '\\' then some '\\'
          else if e = '/' then some '/'
          else if e = 'b' then some (Char.ofNat 8)
          else if e = 'f' then some (Char.ofNat 12)
          else if e = 'n' then some '\n'
          else if e = 'r' then some '\r'
          else if e = 't' then some '\t'
          else none
        match esc with
        | none => none
        | some ec =>
          match parseStringBody fuel cs2 with
          | some (body, rest) => some (ec :: body, rest)
          | none => none
    else if c.toNat < 32 then none
    else
      match parseStringBody fuel cs with
      | some (body, rest) => some (c :: body, rest)
      | none => none

mutual

/-- One json value, returning the unconsumed remainder (recursive-descent
model of the `json.loads` grammar on the integer fragment). -/
def parseValue : Nat → Txt → Option (JVal × Txt)
  | 0, _ => none
  | fuel + 1, t =>
    match skipWs t with
    | [] => none
    | c :: cs =>
      if c = 'n' then
        match cs with
        | 'u' :: 'l' :: 'l' :: rest => some (.null, rest)
        | _ => none
      else if c = 't' then
        match cs with
        | 'r' :: 'u' :: 'e' :: rest => some (.bool true, rest)
        | _ => none
      else if c = 'f' then
        match cs with
        | 'a' :: 'l' :: 's' :: 'e' :: rest => some (.bool false, rest)
        | _ => none
      else if c = '"' then
        match parseStringBody fuel cs with
        | some (s, rest) => some (.str s, rest)
        | none => none
      else if c = '[' then
        match skipWs cs with
        | c2 :: rest2 =>
          if c2 = ']' then some (.arr [], rest2) else parseArrItems fuel cs []
        | [] => none
      else if c = obrace then
        match skipWs cs with
        | c2 :: rest2 =>
          if c2 = cbrace then some (.obj [], rest2) else parseObjItems fuel cs []
        | [] => none
      else parseNumberTok (c :: cs)

/-- Comma-separated json array items up to the closing bracket. -/
def parseArrItems : Nat → Txt → List JVal → Option (JVal × Txt)
  | 0, _, _ => none
  | fuel + 1, t, acc =>
    match parseValue fuel t with
    | none => none
    | some (v, rest) =>
      match skipWs rest with
      | c :: rest2 =>
        if c = ',' then parseArrItems fuel rest2 (v :: acc)
        else if c = ']' then some (.arr (v :: acc).reverse, rest2)
        else none
      | [] => none

/-- Comma-separated json object entries up to the closing brace; duplicate
keys overwrite in place, as in a Python dict. -/
def parseObjItems : Nat → Txt → PyDict → Option (JVal × Txt)
  | 0, _, _ => none
  | fuel + 1, t, acc =>
    match skipWs t with
    | c :: cs =>
      if c = '"' then
        match parseStringBody fuel cs with
        | some (k, rest) =>
          match skipWs rest with
          | c2 :: rest2 =>
            if c2 = ':' then
              match parseValue fuel rest2 with
              | some (v, rest3) =>
                match skipWs rest3 with
                | c3 :: rest4 =>
                  if c3 = ',' then parseObjItems fuel rest4 (alSet acc k v)
                  else if c3 = cbrace then some (.obj (alSet acc k v), rest4)
                  else none
                | [] => none
              | none => none
            else none
          | [] => none
        | none => none
      else none
    | [] => none

end

/-- The reference strict json decoder (`json.loads`) on the modelled
fragment: one value, with only trailing whitespace allowed after it. -/
def jsonParse (t : Txt) : Option JVal :=
  match parseValue (2 * t.length + 4) t with
  | some (v, rest) => if (skipWs rest).isEmpty then some v else none
  | none => none

/-- The apostrophe character. -/
def squote : Char := Char.ofNat 39

/-- `helpers.normalize_quotes`: map smart quote and apostrophe variants to
plain ASCII quote characters. -/
def normalizeQuoteChar (c : Char) : Char :=
  if c = Char.ofNat 0x2018 ∨ c = Char.ofNat 0x2019 ∨ c = Char.ofNat 0x201A ∨
     c = Char.ofNat 0x201B ∨ c = Char.ofNat 0x2032 ∨ c = Char.ofNat 0x2035 ∨
     c = Char.ofNat 0x02BC ∨ c = Char.ofNat 0xFF07 then squote
  else if c = Char.ofNat 0x201C ∨ c = Char.ofNat 0x201D ∨ c = Char.ofNat 0x201E ∨
     c = Char.ofNat 0x201F ∨ c = Char.ofNat 0x2033 ∨ c = Char.ofNat 0x2036 ∨
     c = Char.ofNat 0xFF02 then '"'
  else c

def normalize_quotes (t : Txt) : Txt := t.map normalizeQuoteChar

/-- Does `p` occur at the start of `t`? -/
def startsWith : Txt → Txt → Bool
  | [], _ => true
  | _ :: _, [] => false
  | p :: ps, c :: cs => p = c && startsWith ps cs

/-- Python `str.removeprefix`. -/
def removePre (p t : Txt) : Txt := if startsWith p t then t.drop p.length else t

/-- Python `str.removesuffix`. -/
def removeSuf (p t : Txt) : Txt :=
  if startsWith p.reverse t.reverse then t.take (t.length - p.length) else t

def backtick : Char := Char.ofNat 96

def fencePre : Txt := [backtick, backtick, backtick, 'j', 's', 'o', 'n']

def fenceSuf : Txt := [backtick, backtick, backtick]

/-- Index of the last occurrence of a character, if any. -/
def lastClose (c : Char) : Txt → Option Nat
  | [] => none
  | x :: xs =>
    match lastClose c xs with
    | some j => some (j + 1)
    | none => if x = c then some 0 else none

/-- The regex step: `re.search(r'(\x7b.*\x7d|\[.*\])', text, re.DOTALL)`.
Positions are scanned left to right; at each position the brace alternative
is tried first; `.*` is greedy, so the match extends to the last matching
closer in the whole text. -/
def extractSpan : Txt → Option Txt
  | [] => none
  | x :: xs =>
    if x = obrace then
      match lastClose cbrace xs with
      | some j => some (x :: xs.take (j + 1))
      | none => extractSpan xs
    else if x = '[' then
      match lastClose ']' xs with
      | some j => some (x :: xs.take (j + 1))
      | none => extractSpan xs
    else extractSpan xs

/-- `if match: text = match.group(1)`. -/
def applySpan (t : Txt) : Txt :=
  match extractSpan t with
  | some s => s
  | none => t

/-- Try to match `\s*([\]\x7d])` and return the closer plus the remainder. -/
def matchWsClose : Txt → Option (Char × Txt)
  | [] => none
  | c :: cs =>
    if c = ']' ∨ c = cbrace then some (c, cs)
    else if isPyWs c then matchWsClose cs
    else none

theorem matchWsClose_length :
    ∀ (t : Txt) (c : Char) (rest : Txt), matchWsClose t = some (c, rest) →
      rest.length < t.length := by
  intro t
  induction t with
  | nil => intro c rest h; cases h
  | cons x xs ih =>
    intro c rest h
    rw [matchWsClose] at h
    by_cases h1 : x = ']' ∨ x = cbrace
    · rw [if_pos h1] at h
      cases h
      exact Nat.lt_succ_self _
    · rw [if_neg h1] at h
      by_cases h2 : isPyWs x
      · rw [if_pos h2] at h
        exact Nat.lt_succ_of_lt (ih c rest h)
      · rw [if_neg h2] at h
        cases h

/-- Worker for the trailing-comma regex, with explicit fuel (one unit per
character; every step consumes at least one character, so `t.length` fuel
is always enough and the out-of-fuel branch is never taken). -/
def dropCommaCloseGo : Nat → Txt → Txt
  | 0, t => t
  | _ + 1, [] => []
  | fuel + 1, c :: cs =>
    if c = ',' then
      match matchWsClose cs with
      | some (cc, rest) => cc :: dropCommaCloseGo fuel rest
      | none => c :: dropCommaCloseGo fuel cs
    else c :: dropCommaCloseGo fuel cs

/-- `re.sub(r',\s*([\]\x7d])', r'\1', text)`: drop a comma standing before
(whitespace and) a closing bracket or brace, scanning left to right over
non-overlapping matches. -/
def dropCommaClose (t : Txt) : Txt := dropCommaCloseGo t.length t

def noneTok : Txt := ['N', 'o', 'n', 'e']

def nullTok : Txt := ['n', 'u', 'l', 'l']

/-- Worker for `replace("None", "null")` with explicit fuel (one unit per
character, always sufficient). -/
def replaceNoneGo : Nat → Txt → Txt
  | 0, t => t
  | _ + 1, [] => []
  | fuel + 1, c :: cs =>
    if startsWith noneTok (c :: cs) then nullTok ++ replaceNoneGo fuel (cs.drop 3)
    else c :: replaceNoneGo fuel cs

/-- Python `text.replace("None", "null")`: left-to-right, non-overlapping. -/
def replaceNone (t : Txt) : Txt := replaceNoneGo t.length t

/-- Python `text.replace("'", '"')`. -/
def replaceSQuote (t : Txt) : Txt := t.map (fun c => if c = squote then '"' else c)

/-- Steps 1-5 of `helpers.robust_json_parse`: quote normalization, fence
stripping, span extraction, trailing-comma removal, `None` and single-quote
replacement. -/
def robustTransform (t : Txt) : Txt :=
  let t1 := normalize_quotes t
  let t2 := pyStrip (removeSuf fenceSuf (removePre fencePre (pyStrip t1)))
  let t3 := applySpan t2
  let t4 := dropCommaClose t3
  replaceSQuote (replaceNone t4)

/-- `helpers.robust_json_parse`. The JSON5 parser and
`ast.literal_eval` are third-party collaborators, passed in as functions;
the final `raise JSONParsingError` is modelled by `Except.error` (the
`return` statement after it is unreachable and has no counterpart). -/
def robust_json_parse (json5 litEval : Txt → Option JVal) (t : Txt) :
    Except Unit JVal :=
  let s := robustTransform t
  match jsonParse s with
  | some v => .ok v
  | none =>
    match json5 s with
    | some v => .ok v
    | none =>
      match litEval s with
      | some v => .ok v
      | none => .error ()

/-- `BasePropertiesExtractor.DEFAULT_TOKEN_COUNT = 999*2`. -/
def DEFAULT_TOKEN_COUNT : Nat := 999 * 2

/-- `BasePropertiesExtractor.FIND_MATERIALS_MAX_TOKENS = 512*100`. -/
def FIND_MATERIALS_MAX_TOKENS : Nat := 512 * 100

/-- `BasePropertiesExtractor.MAX_MATERIALS = 30`. -/
def MAX_MATERIALS : Nat := 30

/-- `BasePropertiesExtractor._token_estimation`: the threshold ladder is
computed and then unconditionally overwritten with
`FIND_MATERIALS_MAX_TOKENS` (the dead ladder is kept here verbatim). -/
def token_estimation (token_count : Nat) : Nat :=
  let ladder :=
    if token_count ≤ 1000 then 786
    else if token_count ≤ 3000 then 1024
    else min (1024 + 512 * ((token_count - 3000) / 1000 + 1)) 5120
  let max_tok := ladder
  let _ := max_tok
  FIND_MATERIALS_MAX_TOKENS

/-- The table-path token planner inside
`BasePropertiesExtractor._count_table_and_plan_tokens_node`:
`512*2` when no rows were found, else `min(512*2 + rows*325, 2*5120)`. -/
def planTableTokens (total_rows : Nat) : Nat :=
  if total_rows = 0 then 512 * 2
  else min (512 * 2 + total_rows * 325) (2 * 5120)

/-- The orchestrator state fields relevant to the read/plan/guard steps
(the `State` TypedDict, restricted to what those nodes touch). -/
structure PState where
  folder : Txt
  fulltext : Option Txt
  llmMaxTokens : Option Nat
  material_names : Option (List Txt)
  skip : Bool
  retries : Nat
  deriving Repr, DecidableEq

/-- `BasePropertiesExtractor._generate_empty_state`. -/
def genEmptyState (folder : Txt) : PState :=
  { folder := folder, fulltext := none, llmMaxTokens := none,
    material_names := none, skip := false, retries := 0 }

/-- `BasePropertiesExtractor._read_fulltext_node`: the file contents are
supplied by the filesystem collaborator. -/
def readFulltextNode (contents : Txt) (st : PState) : PState :=
  { st with fulltext := some contents, retries := 0 }

/-- `BasePropertiesExtractor._set_tokens_node`: `token_count` is the
constant `DEFAULT_TOKEN_COUNT`, not a function of the source text; the
skip branch fires only when that constant is zero. -/
def setTokensNode (st : PState) : PState :=
  let token_count := DEFAULT_TOKEN_COUNT
  if token_count = 0 then { st with skip := true }
  else { st with llmMaxTokens := some (token_estimation token_count), skip := false }

/-- Conditional-edge targets after the `set_tokens` node. -/
inductive Route where
  | toEND : Route
  | toFindMaterials : Route
  deriving Repr, DecidableEq

/-- `BasePropertiesExtractor._skip_if_zero_tokens`. -/
def skipIfZeroTokens (st : PState) : Route :=
  if st.skip then .toEND else .toFindMaterials

/-- One entry of the candidate normalization loop of
`extract_material_candidates`: skip falsy or non-string entries, strip,
then skip empty keys. -/
def strippedName : JVal → Option Txt
  | .str s =>
    if s.isEmpty then none
    else if (pyStrip s).isEmpty then none
    else some (pyStrip s)
  | _ => none

/-- The normalization loop of `PropertiesExtractor.extract_material_candidates`
(the code after `robust_json_parse`): `seen`-set dedup over stripped keys. -/
def candLoop (seen : List Txt) : List JVal → List Txt
  | [] => []
  | m :: rest =>
    match strippedName m with
    | none => candLoop seen rest
    | some key =>
      if key ∈ seen then candLoop seen rest
      else key :: candLoop (key :: seen) rest

/-- `PropertiesExtractor.extract_material_candidates`, as a function of the
parsed `materials` array of the generated output. `max_materials` is
interpolated into the prompt only; the source applies no local truncation,
which is why the result below does not depend on it. -/
def extract_material_candidates_post (mats : List JVal) (max_materials : Nat) :
    List Txt :=
  let _ := max_materials
  candLoop [] mats

/-- The candidate loop is the generic `seen`-set dedup over the stripped,
filtered entries. -/
theorem candLoop_eq_dedupe (mats : List JVal) :
    ∀ seen : List Txt,
      candLoop seen mats = dedupeByGo id seen (mats.filterMap strippedName) := by
  induction mats with
  | nil => intro seen; rfl
  | cons m rest ih =>
    intro seen
    cases hm : strippedName m with
    | none =>
      rw [List.filterMap_cons_none hm, ← ih]
      simp [candLoop, hm]
    | some key =>
      rw [List.filterMap_cons_some hm]
      by_cases hseen : key ∈ seen
      · rw [dedupeByGo, if_pos (show (id key) ∈ seen from hseen), ← ih]
        simp [candLoop, hm, hseen]
      · rw [dedupeByGo, if_neg (show ¬ (id key) ∈ seen from hseen), ← ih]
        simp [candLoop, hm, hseen]

/-- One table on disk: csv rows plus caption (read-only snapshot). -/
structure TableBlock where
  filename : Txt
  caption : Txt
  rows : List JVal
  row_count : Nat

/-- The serialized tables-and-captions block fed into the prompt (prompt
text content is an out-of-scope collaborator; only its data dependence is
modelled). -/
def combinedBlock (tables : List TableBlock) : Txt :=
  (tables.map fun tb => tb.caption ++ dumps (.arr tb.rows)).flatten

/-- The material-hint line (`get_materials_hint`), content opaque. -/
def materialsHint : Option (List Txt) → Txt
  | none => []
  | some names => names.flatten

/-- `PromptNotImplementedError`: raised when the prompt template was never
configured; this happens before the `try` block of `extract_from_tables`. -/
inductive TableErr where
  | promptNotImplemented : TableErr
  deriving Repr, DecidableEq

/-- `PropertiesExtractor.extract_from_tables`. The generation capability
`invoke` and the two fallback parsers are external collaborators. An empty
table list returns the empty bundle before any prompt is built or the
capability consulted; with tables present, a missing prompt template raises
outside the `try` block, while any failure of the capability call or of
parsing inside the `try` block is converted to the empty bundle. -/
def extract_from_tables (tmpl : Option Txt) (invoke : Txt → Except Unit Txt)
    (json5 litEval : Txt → Option JVal) (table_data : List TableBlock)
    (material_names : Option (List Txt)) : Except TableErr JVal :=
  if table_data.isEmpty then .ok emptyBundle
  else
    match tmpl with
    | none => .error .promptNotImplemented
    | some tpl =>
      let final_prompt := tpl ++ materialsHint material_names ++ combinedBlock table_data
      match invoke final_prompt with
      | .error _ => .ok emptyBundle
      | .ok out =>
        match robust_json_parse json5 litEval out with
        | .ok j => .ok j
        | .error _ => .ok emptyBundle

/-- One material dict, as mutated in place by the judge stage. -/
abbrev Material := PyDict

def valueKey : Txt := ("value").toList

def valueSuffix : Txt := ("_value").toList

def incorrectKey : Txt := ("incorrect").toList

def tempMismatchKey : Txt := ("temp_mismatch").toList

def notesKey : Txt := ("notes").toList

def objGet : JVal → Txt → Option JVal
  | .obj kvs, k => alGet kvs k
  | _, _ => none

/-- Python truthiness on json-like values. -/
def pyFalsy : JVal → Bool
  | .null => true
  | .bool false => true
  | .int 0 => true
  | .str [] => true
  | .arr [] => true
  | .obj [] => true
  | _ => false

/-- `verdict.get(k, {}) or {}`. -/
def getOrEmptyObj (verdict : JVal) (k : Txt) : JVal :=
  match objGet verdict k with
  | none => .obj []
  | some v => if pyFalsy v then .obj [] else v

/-- ASCII `str.lower()`. -/
def lowerChar (c : Char) : Char :=
  if 65 ≤ c.toNat ∧ c.toNat ≤ 90 then Char.ofNat (c.toNat + 32) else c

def lowerTxt (t : Txt) : Txt := t.map lowerChar

/-- Python `p in t` substring check. -/
def containsSub : Txt → Txt → Bool
  | p, [] => p.isEmpty
  | p, c :: cs => startsWith p (c :: cs) || containsSub p cs

/-- The numeric view Python equality gives json scalars (`bool` is an
`int` subtype; floats are outside the modelled fragment). -/
def pyNumVal : JVal → Option Int
  | .int n => some n
  | .bool b => some (if b then 1 else 0)
  | _ => none

/-- `v.get(k)` with `None` for a missing key. In Python a non-dict `v`
would raise here; the judge theorems carry well-formedness hypotheses that
keep the model on inputs where every measurement entry is a dict. -/
def vGetN (v : JVal) (k : Txt) : JVal :=
  match v with
  | .obj kvs => (alGet kvs k).getD .null
  | _ => .null

/-- Python `==` on the values compared by the judge (numeric cross-type
equality included). -/
def pyEq (a b : JVal) : Bool :=
  match pyNumVal a, pyNumVal b with
  | some x, some y => x == y
  | _, _ => a == b

def itemsOf : JVal → List (Txt × JVal)
  | .obj kvs => kvs
  | _ => []

def arrItems : JVal → List JVal
  | .arr xs => xs
  | _ => []

/-- `familyMap.get(name, {})`: json object keys are strings, so a hashable
non-string name (`None`, a bool, a number) simply never matches and yields
the default. A dict- or list-valued name would make Python raise
`TypeError: unhashable type` at this lookup instead; `matWf` excludes such
names, so under the judge theorems' hypotheses the non-string branch below
is only ever taken for hashable names, where the default is faithful. -/
def verdictFor (familyMap : JVal) (name : JVal) : JVal :=
  match name with
  | .str s => (objGet familyMap s).getD (.obj [])
  | _ => .obj []

/-- Does a measurement entry match one of the flagged incorrect values?
(`isinstance(bad, (int, float)) and (bad == v.get("value") or
bad == v.get(f"..._value"))`.) -/
def measMatchesIncorrect (famKey : Txt) (bads : List JVal) (v : JVal) : Bool :=
  bads.any fun bad =>
    match pyNumVal bad with
    | some n =>
      pyEq (.int n) (vGetN v valueKey) || pyEq (.int n) (vGetN v (famKey ++ valueSuffix))
    | none => false

/-- Remove flagged incorrect values for one family from every list-valued
property whose key contains the family name case-insensitively. -/
def applyIncorrectFam (famKey : Txt) (bads : List JVal) (mat : Material) : Material :=
  mat.map fun p =>
    if containsSub (lowerTxt famKey) (lowerTxt p.1) then
      match p.2 with
      | .arr vs => (p.1, .arr (vs.filter fun v => !(measMatchesIncorrect famKey bads v)))
      | _ => p
    else p

def applyIncorrect (famMap : JVal) (mat : Material) : Material :=
  (itemsOf famMap).foldl (fun m p => applyIncorrectFam p.1 (arrItems p.2) m) mat

/-- One temperature-mismatch flag: remove entries whose `value` (or
family-prefixed value) equals the flagged value, regardless of temperature. -/
def applyMismatchBad (famKey : Txt) (bad : JVal) (vs : List JVal) : List JVal :=
  vs.filter fun v =>
    !(pyEq (vGetN bad valueKey) (vGetN v valueKey)) &&
    !(pyEq (vGetN bad valueKey) (vGetN v (famKey ++ valueSuffix)))

def applyMismatchFam (famKey : Txt) (bads : List JVal) (mat : Material) : Material :=
  mat.map fun p =>
    if containsSub (lowerTxt famKey) (lowerTxt p.1) then
      match p.2 with
      | .arr vs => (p.1, .arr (bads.foldl (fun acc bad => applyMismatchBad famKey bad acc) vs))
      | _ => p
    else p

def applyMismatch (famMap : JVal) (mat : Material) : Material :=
  (itemsOf famMap).foldl (fun m p => applyMismatchFam p.1 (arrItems p.2) m) mat

/-- The full per-material filtering of `judge_verify_properties`
(`name = mat.get("name", "")`, then the incorrect and temp-mismatch removal
loops, both assigning into the same dict). -/
def judgeFilterMat (incorrect temp_mismatch : JVal) (mat : Material) : Material :=
  applyMismatch (verdictFor temp_mismatch ((alGet mat nameKey).getD (.str [])))
    (applyIncorrect (verdictFor incorrect ((alGet mat nameKey).getD (.str []))) mat)

/-- The heap of material dicts: bundles hold addresses into it, so the
judge mutating a material through one bundle is visible through every
other bundle holding the same address. -/
abbrev Heap := Nat → Material

def updateHeap (h : Heap) (a : Nat) (m : Material) : Heap :=
  fun x => if x = a then m else h x

/-- The three syntactically distinct returns of `judge_verify_properties`:
the empty-input early return, the parse-failure fallback (`return merged`),
and the filtered result (`return {"materials": cleaned, "notes": notes}`,
where `cleaned` lists exactly the merged materials in order). -/
inductive JudgeRet where
  | noMaterials : JudgeRet
  | fallback (mats : List Nat) : JudgeRet
  | filtered (mats : List Nat) (notes : JVal) : JudgeRet
  deriving Repr, DecidableEq

structure JudgeOutcome where
  ret : JudgeRet
  store : Heap
  errorLogCount : Nat

/-- `PropertiesExtractor.judge_verify_properties` over the heap model.
`thermoM`, `structM`, `tableM` are the material-address lists of the three
input bundles (an absent bundle, or one with a falsy `materials` entry,
contributes the empty list — exactly what the
`if block and block.get("materials")` guard produces). The capability
response is `response`; parsing it uses the embedded
`helpers.robust_json_parse` with the external fallback parsers. The
`correct` and `structure_ok` verdict parts only produce audit-log lines
in the source and do not affect the returned value or the heap; the audit
log is not modelled, the error log is modelled as an appended-line count. -/
def judge_verify_properties (json5 litEval : Txt → Option JVal)
    (store : Heap) (thermoM structM tableM : List Nat) (response : Txt) :
    JudgeOutcome :=
  let merged := thermoM ++ structM ++ tableM
  if merged.isEmpty then ⟨.noMaterials, store, 0⟩
  else
    match robust_json_parse json5 litEval response with
    | .error _ => ⟨.fallback merged, store, 1⟩
    | .ok verdict =>
      match verdict with
      | .obj kvs =>
        let incorrect := getOrEmptyObj (.obj kvs) incorrectKey
        let temp_mismatch := getOrEmptyObj (.obj kvs) tempMismatchKey
        let notes := (objGet (.obj kvs) notesKey).getD (.str [])
        let store2 := merged.foldl
          (fun h a => updateHeap h a (judgeFilterMat incorrect temp_mismatch (h a)))
          store
        ⟨.filtered merged notes, store2, 0⟩
      | _ => ⟨.fallback merged, store, 1⟩

/-- The state fields the judge graph node touches. -/
structure JudgeNodeState where
  thermo : Option JudgeRet
  deriving Repr, DecidableEq

/-- `BasePropertiesExtractor._judge_node`: the whole judge call sits in a
`try` block whose `except` clause appends an error-log entry and returns
the state unchanged, so no exception propagates past this node. -/
def judgeNode (st : JudgeNodeState) (outcome : Except Unit JudgeRet) :
    JudgeNodeState × Nat :=
  match outcome with
  | .ok judged => ({ st with thermo := some judged }, 0)
  | .error _ => (st, 1)

def jIsObj : JVal → Bool
  | .obj _ => true
  | _ => false

/-- C1: the specification says that for a paper whose source text has zero
length the orchestrator takes the terminal early exit right after the
read/plan steps, running no extraction, verification or persist stage and
writing no artifact. In the code, `_set_tokens_node` sets `token_count` to
the constant `DEFAULT_TOKEN_COUNT = 999*2 = 1998` — it never looks at the
source text — so the `token_count == 0` skip branch (with its "Skipping
... due to token_count = 0" message) is dead code: on an empty
`fulltext.txt` the skip flag stays `false` and `_skip_if_zero_tokens`
routes to `Find_materials`, which invokes the generation capability. This
theorem evaluates the embedded nodes at the failing input (empty source
text) and shows the guard can never fire for any state. -/
theorem C1_zero_size_early_exit_never_taken :
    (setTokensNode (readFulltextNode [] (genEmptyState (("paper1").toList)))).skip = false
    ∧ skipIfZeroTokens
        (setTokensNode (readFulltextNode [] (genEmptyState (("paper1").toList))))
        = Route.toFindMaterials
    ∧ (∀ st : PState, (setTokensNode st).skip = false
        ∧ skipIfZeroTokens (setTokensNode st) = Route.toFindMaterials) := by
  refine ⟨rfl, rfl, ?_⟩
  intro st
  exact ⟨rfl, rfl⟩

/-- C2 counterexample: the strict json document `("a" maps to "None")` is
decoded by the reference decoder with the string `"None"` intact, but
`robust_json_parse` replaces the token `None` inside the string during
step 5, before its strict-parse step, and returns the string `"null"`
instead: the tolerant parser is not structurally equal to the reference
decoder on this valid strict json input, so step 5 does alter an input
that strict json parsing already accepts. -/
theorem C2_counterexample :
    jsonParse (("\x7b\"a\": \"None\"\x7d").toList)
      = some (.obj [(['a'], .str (("None").toList))])
    ∧ robust_json_parse (fun _ => none) (fun _ => none)
        (("\x7b\"a\": \"None\"\x7d").toList)
      = .ok (.obj [(['a'], .str (("null").toList))])
    ∧ JVal.obj [(['a'], .str (("None").toList))]
        ≠ JVal.obj [(['a'], .str (("null").toList))] := by
  exact ⟨rfl, rfl, by decide⟩

/-- C2 amended: on every input that the normalization pipeline (steps 1-5:
quote normalization, fence stripping, span extraction, trailing-comma
removal, None/quote replacement) leaves unchanged and that the reference
strict decoder accepts, `robust_json_parse` returns exactly the reference
decoder's value, and the relaxed fallback parsers are never consulted. -/
theorem C2_strict_json_preserved (json5 litEval : Txt → Option JVal)
    (t : Txt) (v : JVal) (hfix : robustTransform t = t)
    (hparse : jsonParse t = some v) :
    robust_json_parse json5 litEval t = .ok v := by
  simp [robust_json_parse, hfix, hparse]

/-- Witness for the amended C2 at a concrete strict json document. -/
theorem C2_strict_json_preserved_witness :
    robustTransform (("\x7b\"a\": 1\x7d").toList) = ("\x7b\"a\": 1\x7d").toList
    ∧ jsonParse (("\x7b\"a\": 1\x7d").toList) = some (.obj [(['a'], .int 1)])
    ∧ robust_json_parse (fun _ => none) (fun _ => none)
        (("\x7b\"a\": 1\x7d").toList) = .ok (.obj [(['a'], .int 1)]) :=
  ⟨rfl, rfl,
    C2_strict_json_preserved (fun _ => none) (fun _ => none) _ _ rfl rfl⟩

/-- C3: with a non-empty concatenated working list, if parsing the
verification response fails (the embedded `robust_json_parse` raises) or
the parsed verdict is not a mapping (the `ValueError` path, caught by the
same handler), then `judge_verify_properties` returns the fallback
`merged` — the unchanged concatenation of the thermo, structure and table
material lists — leaves every material untouched (the heap is unchanged),
and appends one entry to the error log; and the orchestrator judge node
turns any exception from the judge into an unchanged pipeline state plus
an error-log entry, so verification never raises past the node. -/
theorem C3_judge_fallback_on_parse_failure (json5 litEval : Txt → Option JVal)
    (store : Heap) (thermoM structM tableM : List Nat) (response : Txt)
    (hne : thermoM ++ structM ++ tableM ≠ [])
    (hfail : robust_json_parse json5 litEval response = .error ()
      ∨ ∃ v : JVal, robust_json_parse json5 litEval response = .ok v ∧ jIsObj v = false) :
    judge_verify_properties json5 litEval store thermoM structM tableM response
      = ⟨.fallback (thermoM ++ structM ++ tableM), store, 1⟩
    ∧ (∀ (st : JudgeNodeState) (e : Unit), judgeNode st (.error e) = (st, 1)) := by
  constructor
  · rw [judge_verify_properties]
    rw [if_neg (by simpa [List.isEmpty_iff] using hne)]
    rcases hfail with herr | ⟨v, hok, hobj⟩
    · rw [herr]
    · rw [hok]
      cases v with
      | obj kvs => exact absurd hobj (by simp [jIsObj])
      | null => rfl
      | bool b => rfl
      | int n => rfl
      | str s => rfl
      | arr xs => rfl
  · intro st e
    rfl

/-- Witness for C3: one thermo material, an unparseable response. -/
theorem C3_judge_fallback_witness :
    judge_verify_properties (fun _ => none) (fun _ => none)
        (fun _ => []) [0] [] [] (("garbage").toList)
      = ⟨.fallback [0], fun _ => [], 1⟩ :=
  (C3_judge_fallback_on_parse_failure (fun _ => none) (fun _ => none)
    (fun _ => []) [0] [] [] (("garbage").toList)
    (by decide) (Or.inl rfl)).1

/-- C4: the table-path token planner is exactly `rows = 0 → 1024` and
`rows > 0 → min(1024 + rows*325, 10240)` (base `512*2`, per-row cost 325,
hard cap `2*5120` in the code); it is non-decreasing, never exceeds the
hard cap, and equals the cap exactly for large row counts (from 29 rows
on: `1024 + 29*325 = 10449 ≥ 10240`). -/
theorem C4_table_token_planner (q r s r1 r2 : Nat) (h12 : r1 ≤ r2)
    (hr : 0 < r) (hs : 29 ≤ s) :
    planTableTokens 0 = 1024
    ∧ planTableTokens q ≤ 10240
    ∧ planTableTokens r1 ≤ planTableTokens r2
    ∧ planTableTokens s = 10240
    ∧ planTableTokens r = min (1024 + r * 325) 10240 := by
  refine ⟨rfl, ?_, ?_, ?_, ?_⟩
  · simp only [planTableTokens]
    split
    · omega
    · have := Nat.min_le_right (512 * 2 + q * 325) (2 * 5120)
      omega
  · simp only [planTableTokens]
    split
    · split
      · omega
      · refine Nat.le_min.mpr ⟨?_, ?_⟩
        · omega
        · omega
    · split
      · omega
      · have h1 : 512 * 2 + r1 * 325 ≤ 512 * 2 + r2 * 325 := by
          have := Nat.mul_le_mul_right 325 h12
          omega
        exact min_le_min h1 (Nat.le_refl _)
  · simp only [planTableTokens]
    split
    · omega
    · have hbig : 2 * 5120 ≤ 512 * 2 + s * 325 := by
        have := Nat.mul_le_mul_right 325 hs
        omega
      rw [Nat.min_eq_right hbig]
  · simp only [planTableTokens]
    split
    · omega
    · rfl

/-- Witness for C4 at concrete row counts. -/
theorem C4_table_token_planner_witness :
    planTableTokens 0 = 1024
    ∧ planTableTokens 7 ≤ 10240
    ∧ planTableTokens 3 ≤ planTableTokens 5
    ∧ planTableTokens 30 = 10240
    ∧ planTableTokens 4 = min (1024 + 4 * 325) 10240 :=
  C4_table_token_planner 7 4 30 3 5 (by decide) (by decide) (by decide)

/-- C5 counterexample to the claim as stated: `_dedupe_list` compares a
dict/list item by its serialized text (`json.dumps`), which can equate it
with a plain string item that is not structurally equal to it: merging
lists `[[1, 2]]` and `["[1, 2]"]` under key `a` drops the string item
`"[1, 2]"` because it serializes identically to the list `[1, 2]`, so list
deduplication is not structural (deep) equality on non-scalar items — a
structurally distinct pair is still deduplicated. -/
theorem C5_counterexample :
    merge_values (.obj [(['a'], .arr [.arr [.int 1, .int 2]])])
        (.obj [(['a'], .arr [.str (("[1, 2]").toList)])])
      = .obj [(['a'], .arr [.arr [.int 1, .int 2]])]
    ∧ JVal.arr [.int 1, .int 2] ≠ JVal.str (("[1, 2]").toList) := by
  exact ⟨rfl, by decide⟩

/-- C5 amended: `merge_values` has `null` as an identity element in both
argument orders, also through the dict rule as in the spec example
(merging name `x` to `null` against `x` to `"v"` gives `"v"` either way);
merging two lists concatenates and then deduplicates keeping first
occurrences of each serialization key (Python `str()` for scalars,
sorted-key json text for dict/list items — which equates structurally
equal dict/list items but can also equate a dict/list item with a string
item whose text coincides with its serialization); and the spec example
`[1,2]` merged with `[2,3]` yields `[1,2,3]`. -/
theorem C5_merge_value_rule (b a : JVal) (xs ys : List JVal) :
    merge_values .null b = b
    ∧ merge_values a .null = a
    ∧ merge_values (.obj [(['x'], .null)]) (.obj [(['x'], .str ['v'])])
        = .obj [(['x'], .str ['v'])]
    ∧ merge_values (.obj [(['x'], .str ['v'])]) (.obj [(['x'], .null)])
        = .obj [(['x'], .str ['v'])]
    ∧ merge_values (.arr xs) (.arr ys) = .arr (dedupeList (xs ++ ys))
    ∧ dedupeList (xs ++ ys) = firstOccBy pyKey (xs ++ ys)
    ∧ merge_values (.obj [(['a'], .arr [.int 1, .int 2])])
        (.obj [(['a'], .arr [.int 2, .int 3])])
        = .obj [(['a'], .arr [.int 1, .int 2, .int 3])] := by
  refine ⟨?_, ?_, rfl, rfl, rfl, dedupeBy_eq_firstOccBy pyKey (xs ++ ys), rfl⟩
  · cases b <;> rfl
  · cases a <;> rfl

/-- C6 counterexample: `extract_material_candidates` never truncates its
result to `max_materials` locally — the cap is only written into the
prompt. With `max_materials = 2` and a recovered output listing three
distinct names, the returned list has length 3. -/
theorem C6_counterexample :
    extract_material_candidates_post [.str ['A'], .str ['B'], .str ['C']] 2
      = [['A'], ['B'], ['C']]
    ∧ ¬ (extract_material_candidates_post
        [.str ['A'], .str ['B'], .str ['C']] 2).length ≤ 2 := by
  exact ⟨rfl, by decide⟩

/-- C6 amended: for every recovered output, the candidate list is exactly
the first-occurrence deduplication of the stripped string entries of the
parsed `materials` array: it is deduplicated, contains no empty and no
non-string entries, and preserves first-seen order — but its length is not
capped by `max_materials` (the result does not depend on that parameter at
all). -/
theorem C6_candidates_normalized (mats : List JVal) (maxm : Nat) :
    extract_material_candidates_post mats maxm
        = firstOccBy id (mats.filterMap strippedName)
    ∧ (extract_material_candidates_post mats maxm).Nodup
    ∧ (∀ s ∈ extract_material_candidates_post mats maxm,
        s ≠ [] ∧ ∃ m ∈ mats, strippedName m = some s)
    ∧ extract_material_candidates_post mats 0
        = extract_material_candidates_post mats maxm := by
  have heq : extract_material_candidates_post mats maxm
      = firstOccBy id (mats.filterMap strippedName) := by
    show candLoop [] mats = _
    rw [candLoop_eq_dedupe mats []]
    exact dedupeBy_eq_firstOccBy id (mats.filterMap strippedName)
  have hnodup : (extract_material_candidates_post mats maxm).Nodup := by
    rw [heq]
    have := firstOccBy_keys_nodup id (mats.filterMap strippedName)
    simpa using this
  have hstripped : ∀ (m : JVal) (s : Txt), strippedName m = some s → s ≠ [] := by
    intro m s hm
    cases m with
    | str s0 =>
      rw [strippedName] at hm
      by_cases h0 : s0.isEmpty
      · rw [if_pos h0] at hm; cases hm
      · rw [if_neg h0] at hm
        by_cases h1 : (pyStrip s0).isEmpty
        · rw [if_pos h1] at hm; cases hm
        · rw [if_neg h1] at hm
          cases hm
          simpa [List.isEmpty_iff] using h1
    | null => cases hm
    | bool b => cases hm
    | int n => cases hm
    | arr l => cases hm
    | obj l => cases hm
  refine ⟨heq, hnodup, ?_, rfl⟩
  intro s hs
  rw [heq] at hs
  have hsub : s ∈ mats.filterMap strippedName :=
    (firstOccBy_sublist id (mats.filterMap strippedName)).subset hs
  rcases List.mem_filterMap.mp hsub with ⟨m, hmem, hm⟩
  exact ⟨hstripped m s hm, m, hmem, hm⟩

/-- C7 counterexample: with a non-empty table list but the prompt template
still in its constructor default (unset), `extract_from_tables` raises
`PromptNotImplementedError` from before the `try` block instead of
converting it to the empty bundle — so not every exception during
table extraction is caught locally. -/
theorem C7_counterexample :
    extract_from_tables none (fun _ => .ok []) (fun _ => none) (fun _ => none)
        [⟨("table1.csv").toList, ("cap").toList, [], 0⟩] none
      = .error .promptNotImplemented := rfl

/-- C7 amended: an empty table list yields the canonical empty bundle for
every capability function and template — the capability is not consulted;
with tables present and the prompt template configured, a failing
capability call or a response whose parse fails is converted inside the
`try` block to the empty bundle rather than propagated (only the
missing-template configuration error, raised before the `try`, escapes;
see the counterexample). -/
theorem C7_tables_error_handling (tmpl : Txt)
    (invoke : Txt → Except Unit Txt) (json5 litEval : Txt → Option JVal)
    (names : Option (List Txt)) (tbls : List TableBlock)
    (htbls : tbls ≠ [])
    (hfail : ∀ out, invoke (tmpl ++ materialsHint names ++ combinedBlock tbls)
      = .ok out → robust_json_parse json5 litEval out = .error ()) :
    (∀ (invoke2 : Txt → Except Unit Txt) (tmpl2 : Option Txt),
      extract_from_tables tmpl2 invoke2 json5 litEval [] names = .ok emptyBundle)
    ∧ extract_from_tables (some tmpl) invoke json5 litEval tbls names
        = .ok emptyBundle := by
  constructor
  · intro invoke2 tmpl2
    rfl
  · rw [extract_from_tables]
    rw [if_neg (by simpa [List.isEmpty_iff] using htbls)]
    cases hout : invoke (tmpl ++ materialsHint names ++ combinedBlock tbls) with
    | error e => simp only [hout]
    | ok out => simp only [hout, hfail out hout]

/-- Witness for the amended C7: a fresh template, a failing capability. -/
theorem C7_tables_error_handling_witness :
    extract_from_tables (some []) (fun _ => .error ()) (fun _ => none)
        (fun _ => none) [⟨("table1.csv").toList, ("cap").toList, [], 0⟩] none
      = .ok emptyBundle :=
  (C7_tables_error_handling [] (fun _ => .error ()) (fun _ => none)
    (fun _ => none) none [⟨("table1.csv").toList, ("cap").toList, [], 0⟩]
    (by intro h; cases h) (fun out h => by cases h)).2

/-- C8 counterexample: merging a bundle with itself (running the merge over
the materials list concatenated with itself) is not the identity: doubling
the single material with name `A` and property `p = [1, 1]` deduplicates
the duplicated list items during the in-group merge, producing `p = [1]`,
while merging the singleton bundle leaves `p = [1, 1]` intact — the two
results differ, so "merging the bundle with itself yields an unchanged
bundle" fails as stated. -/
theorem C8_counterexample :
    compileMerge [.obj [(nameKey, .str ['A']), (['p'], .arr [.int 1, .int 1])],
        .obj [(nameKey, .str ['A']), (['p'], .arr [.int 1, .int 1])]]
      = [.obj [(nameKey, .str ['A']), (['p'], .arr [.int 1])]]
    ∧ compileMerge [.obj [(nameKey, .str ['A']), (['p'], .arr [.int 1, .int 1])]]
      = [.obj [(nameKey, .str ['A']), (['p'], .arr [.int 1, .int 1])]]
    ∧ ([JVal.obj [(nameKey, .str ['A']), (['p'], .arr [.int 1])]] : List JVal)
      ≠ [JVal.obj [(nameKey, .str ['A']), (['p'], .arr [.int 1, .int 1])]] := by
  exact ⟨rfl, rfl, by decide⟩

/-- C8 amended: the merge engine is idempotent in the re-merge sense: for
every materials list, running the merge-by-name pass over an
already-merged list returns it unchanged — same materials, same keys and
values, same order (named groups first in first-encounter order, unnamed
materials appended). Merging a bundle with itself by concatenation is not
the identity (see the counterexample): duplicated list items are
deduplicated and a raw singleton name is overwritten by its normalized
form on the second encounter. -/
theorem C8_merge_idempotent (xs : List JVal) :
    compileMerge (compileMerge xs) = compileMerge xs :=
  compileMerge_compileMerge xs

/-- C10: the parser variant the extractor class imports
(`helpers.robust_json_parse`, used by every extraction and verification
stage of `PropertiesExtractor`) resolves the ambiguous failure contract by
raising: when the strict json attempt, the JSON5 attempt and the
literal-expression attempt all fail on the transformed text, the function
raises `JSONParsingError` (modelled as `Except.error ()`) and never
returns the canonical empty bundle — the `return` statement
after the `raise` is unreachable and has no effect on any input. -/
theorem C10_total_failure_raises (json5 litEval : Txt → Option JVal) (t : Txt)
    (h1 : jsonParse (robustTransform t) = none)
    (h2 : json5 (robustTransform t) = none)
    (h3 : litEval (robustTransform t) = none) :
    robust_json_parse json5 litEval t = .error ()
    ∧ ∀ v : JVal, robust_json_parse json5 litEval t ≠ .ok v := by
  have herr : robust_json_parse json5 litEval t = .error () := by
    simp [robust_json_parse, h1, h2, h3]
  refine ⟨herr, ?_⟩
  intro v hv
  rw [herr] at hv
  cases hv

/-- Witness for C10 on a concretely unrecoverable input. -/
theorem C10_total_failure_raises_witness :
    jsonParse (robustTransform (("no json here").toList)) = none
    ∧ robust_json_parse (fun _ => none) (fun _ => none)
        (("no json here").toList) = .error () :=
  ⟨rfl, (C10_total_failure_raises (fun _ => none) (fun _ => none)
    (("no json here").toList) rfl rfl rfl).1⟩

